import Mathlib

/-!
Shallow embedding of the option-file-server staged lifecycle pipeline
(`src/processors/lifetime_processor.py` and
`src/processors/permutation_processor.py`).

Tables are modelled as lists of rows; SQL `REAL` columns as `Option ℚ`
(NULL = `none`), `INTEGER` columns as `Option Int`, `TEXT` columns as
`Option String`; the NOT NULL primary-key columns `osiKey` and
`timestamp` as `String`.  Each SQLite transaction (`BEGIN;` … `COMMIT;`)
of the source is one atomic state change of the model; a rollback leaves
the state unchanged.  Timestamp parsing (`datetime.fromisoformat` +
`total_seconds`) is abstracted as a function `String → Option ℚ` giving
an epoch-seconds value when the string parses.
-/

/-- One row of `option_snapshots` / `option_lifetimes` (both tables have
the same 24-column shape, primary key `(osiKey, timestamp)`; see
`_init_db` in `snapshot_processor.py` and `_init_lifetime_table` in
`lifetime_processor.py`). -/
structure Snap where
  osiKey : String
  timestamp : String
  symbol : Option String
  optionType : Option Int
  strikePrice : Option ℚ
  lastPrice : Option ℚ
  bid : Option ℚ
  ask : Option ℚ
  bidSize : Option ℚ
  askSize : Option ℚ
  volume : Option ℚ
  openInterest : Option ℚ
  nearPrice : Option ℚ
  inTheMoney : Option Int
  delta : Option ℚ
  gamma : Option ℚ
  theta : Option ℚ
  vega : Option ℚ
  rho : Option ℚ
  iv : Option ℚ
  daysToExpiration : Option ℚ
  spread : Option ℚ
  midPrice : Option ℚ
  moneyness : Option ℚ
  deriving DecidableEq, Repr, Inhabited

/-- One row of `option_permutations` (primary key
`(osiKey, buy_timestamp, sell_timestamp)`).  The carried-through
`buy_<col>` and `sell_<col>` values are exactly the fields of the
embedded `buy` and `sell` snapshots, and each `delta_<col>` value of the
source is determined by them as
`toFloat (col sell) - toFloat (col buy)` (see `_build_perm_row`). -/
structure PermRow where
  osiKey : String
  buy_timestamp : String
  sell_timestamp : String
  hold_seconds : ℚ
  profit : ℚ
  return_pct : ℚ
  buy : Snap
  sell : Snap
  deriving DecidableEq, Repr

/-- The shared store: hot table `option_snapshots`, archive table
`option_lifetimes`, feature table `option_permutations`. -/
structure DB where
  hot : List Snap
  archive : List Snap
  perm : List PermRow
  deriving DecidableEq, Repr

/-- Python `_to_float(v)`: `float(v) if v is not None else 0.0` for a
`REAL`-typed value. -/
def toFloat (v : Option ℚ) : ℚ := v.getD 0

/-- Rows of a table belonging to one contract key
(`WHERE osiKey = ?`). -/
def rowsFor (t : List Snap) (osi : String) : List Snap :=
  t.filter fun r => r.osiKey = osi

/-- `DELETE FROM <table> WHERE osiKey = ?`. -/
def deleteKey (t : List Snap) (osi : String) : List Snap :=
  t.filter fun r => r.osiKey ≠ osi

/-- Byte-wise (code-point-wise) lexicographic `≤` on strings as
character lists: the BINARY collation SQLite uses for
`ORDER BY timestamp ASC` on a TEXT column. -/
def lexLe : List Char → List Char → Bool
  | [], _ => true
  | _ :: _, [] => false
  | a :: as, b :: bs =>
    if a < b then true else if b < a then false else lexLe as bs

/-- Strict version of `lexLe`. -/
def lexLt : List Char → List Char → Bool
  | [], [] => false
  | [], _ :: _ => true
  | _ :: _, [] => false
  | a :: as, b :: bs =>
    if a < b then true else if b < a then false else lexLt as bs

/-- BINARY-collation `<` on strings. -/
def tsLt (s t : String) : Bool := lexLt s.data t.data

theorem lexLe_total : ∀ a b : List Char, lexLe a b = true ∨ lexLe b a = true
  | [], _ => Or.inl rfl
  | _ :: _, [] => Or.inr rfl
  | a :: as, b :: bs => by
    rcases lt_trichotomy a b with hab | hab | hab
    · exact Or.inl (by simp [lexLe, hab])
    · subst hab
      rcases lexLe_total as bs with h | h
      · exact Or.inl (by simp [lexLe, h])
      · exact Or.inr (by simp [lexLe, h])
    · exact Or.inr (by simp [lexLe, hab])

theorem lexLe_trans :
    ∀ a b c : List Char, lexLe a b = true → lexLe b c = true → lexLe a c = true
  | [], _, _, _, _ => rfl
  | _ :: _, [], _, h1, _ => by simp [lexLe] at h1
  | _ :: _, _ :: _, [], _, h2 => by simp [lexLe] at h2
  | a :: as, b :: bs, c :: cs, h1, h2 => by
    rcases lt_trichotomy a b with hab | hab | hab
    · rcases lt_trichotomy b c with hbc | hbc | hbc
      · simp [lexLe, lt_trans hab hbc]
      · subst hbc; simp [lexLe, hab]
      · simp [lexLe, hbc, asymm hbc] at h2
    · subst hab
      rcases lt_trichotomy a c with hac | hac | hac
      · simp [lexLe, hac]
      · subst hac
        simp only [lexLe, lt_irrefl, if_false] at h1 h2 ⊢
        exact lexLe_trans as bs cs h1 h2
      · simp [lexLe, hac, asymm hac] at h2
    · simp [lexLe, hab, asymm hab] at h1

theorem lexLt_of_lexLe_of_ne :
    ∀ a b : List Char, lexLe a b = true → a ≠ b → lexLt a b = true
  | [], [], _, hne => absurd rfl hne
  | [], _ :: _, _, _ => rfl
  | _ :: _, [], h1, _ => by simp [lexLe] at h1
  | a :: as, b :: bs, h1, hne => by
    rcases lt_trichotomy a b with hab | hab | hab
    · simp [lexLt, hab]
    · subst hab
      simp only [lexLe, lt_irrefl, if_false] at h1
      have hne2 : as ≠ bs := fun h => hne (by rw [h])
      simp only [lexLt, lt_irrefl, if_false]
      exact lexLt_of_lexLe_of_ne as bs h1 hne2
    · simp [lexLe, hab, asymm hab] at h1

/-- Ordering used by `ORDER BY timestamp ASC`. -/
def tsLe (a b : Snap) : Prop := lexLe a.timestamp.data b.timestamp.data = true

instance : DecidableRel tsLe := fun _ _ =>
  inferInstanceAs (Decidable (_ = true))

instance : IsTotal Snap tsLe :=
  ⟨fun a b => lexLe_total a.timestamp.data b.timestamp.data⟩

instance : IsTrans Snap tsLe :=
  ⟨fun _ _ _ h h2 => lexLe_trans _ _ _ h h2⟩

/-- `SELECT … FROM <table> WHERE osiKey = ? ORDER BY timestamp ASC`. -/
def fetchSorted (t : List Snap) (osi : String) : List Snap :=
  (rowsFor t osi).insertionSort tsLe

/-- The composite primary key of the hot/archive tables. -/
def snapKey (r : Snap) : String × String := (r.osiKey, r.timestamp)

/-- `INSERT OR REPLACE` of one row keyed by `(osiKey, timestamp)`: any
existing row with the same key is replaced. -/
def upsertSnap (t : List Snap) (r : Snap) : List Snap :=
  (t.filter fun r0 => snapKey r0 ≠ snapKey r) ++ [r]

/-- `executemany` of an `INSERT OR REPLACE` statement. -/
def upsertSnaps (t : List Snap) (rs : List Snap) : List Snap :=
  rs.foldl upsertSnap t

/-! ## Lifetime Archiver (`lifetime_processor.py`) -/

/-- Configuration of `OptionLifetimeProcessor` (collaborator-supplied). -/
structure LifetimeCfg where
  batchSize : Nat
  minSnapshots : Nat
  maxRetriesPerOsi : Nat
  deriving Repr

/-- SQLite `MAX` aggregate over a `REAL` column: NULL values are
ignored; the result is NULL when no non-NULL value exists. -/
def sqlMax : List ℚ → Option ℚ
  | [] => none
  | x :: xs =>
    match sqlMax xs with
    | none => some x
    | some m => some (max x m)

/-- The distinct `osiKey` values of the hot table, in first-appearance
order (the grouping of `GROUP BY osiKey`). -/
def hotKeys (db : DB) : List String :=
  (db.hot.map fun r => r.osiKey).dedup

/-- The `HAVING MAX(daysToExpiration) <= 0` filter of the candidate
query, with SQL three-valued logic: a NULL aggregate fails the
condition. -/
def havingMaxDteLe0 (db : DB) (osi : String) : Bool :=
  match sqlMax ((rowsFor db.hot osi).filterMap fun r => r.daysToExpiration) with
  | none => false
  | some m => decide (m ≤ 0)

/-- Candidate selection of `_process_one_batch` (step 1):
`SELECT osiKey FROM option_snapshots GROUP BY osiKey
HAVING MAX(daysToExpiration) <= 0 LIMIT ?`. -/
def selectCandidates (db : DB) (batchSize : Nat) : List String :=
  ((hotKeys db).filter (havingMaxDteLe0 db)).take batchSize

/-- Result of processing one key in `_process_one_batch`: the store
state after the key's transaction, plus the contributions of this key
to the batch-local `archived` and `deleted_small` counters. -/
structure LTResult where
  db : DB
  archivedInc : Nat
  deletedSmallInc : Nat
  deriving DecidableEq, Repr

/-- The per-key body of `_process_one_batch` (one successful attempt):
fetch the key's hot rows ordered by timestamp; if none, no-op; if fewer
than `min_snapshots`, delete the hot rows and count the key as
discarded; otherwise insert all fetched rows into the archive table and
delete them from the hot table in one transaction. -/
def lifetimeProcessOsi (cfg : LifetimeCfg) (db : DB) (osi : String) : LTResult :=
  let snaps := fetchSorted db.hot osi
  if snaps.isEmpty then ⟨db, 0, 0⟩
  else if snaps.length < cfg.minSnapshots then
    ⟨{ db with hot := deleteKey db.hot osi }, 0, 1⟩
  else
    ⟨{ db with
        hot := deleteKey db.hot osi
        archive := upsertSnaps db.archive snaps }, 1, 0⟩

/-! ## Permutation Generator (`permutation_processor.py`) -/

/-- `_build_perm_row(osi, buy_row, sell_row)`.  `pts` abstracts
`datetime.fromisoformat` followed by `total_seconds`: it returns the
epoch-seconds value of a timestamp string, or `none` when parsing
raises.  `hold_seconds` falls back to `0.0` when either timestamp fails
to parse; `return_pct` is `profit / buy_price` when the buy price is
truthy (non-zero), else `0.0`. -/
def buildPermRow (pts : String → Option ℚ) (osi : String) (buy sell : Snap) : PermRow :=
  let hold_seconds : ℚ :=
    match pts buy.timestamp, pts sell.timestamp with
    | some b, some s => s - b
    | _, _ => 0
  let buy_price := toFloat buy.lastPrice
  let sell_price := toFloat sell.lastPrice
  let profit := sell_price - buy_price
  let return_pct := if buy_price = 0 then 0 else profit / buy_price
  { osiKey := osi
    buy_timestamp := buy.timestamp
    sell_timestamp := sell.timestamp
    hold_seconds := hold_seconds
    profit := profit
    return_pct := return_pct
    buy := buy
    sell := sell }

/-- The pair enumeration of `_process_single_osi`:
`for i in range(len(snaps) - 1): for j in range(i + 1, len(snaps))`,
i.e. each element paired with every strictly later element, in loop
order. -/
def permPairs : List Snap → List (Snap × Snap)
  | [] => []
  | x :: rest => (rest.map fun y => (x, y)) ++ permPairs rest

/-- The `rows_to_insert` batch built by `_process_single_osi`. -/
def rowsToInsert (pts : String → Option ℚ) (osi : String) (snaps : List Snap) :
    List PermRow :=
  (permPairs snaps).map fun p => buildPermRow pts osi p.1 p.2

/-- The composite primary key of `option_permutations`. -/
def permKey (r : PermRow) : String × String × String :=
  (r.osiKey, r.buy_timestamp, r.sell_timestamp)

/-- `INSERT OR REPLACE` of one feature row. -/
def upsertPerm (t : List PermRow) (r : PermRow) : List PermRow :=
  (t.filter fun r0 => permKey r0 ≠ permKey r) ++ [r]

/-- `executemany` of the `INSERT OR REPLACE` statement of
`_insert_with_retries`. -/
def upsertPerms (t : List PermRow) (rs : List PermRow) : List PermRow :=
  rs.foldl upsertPerm t

/-- The transaction committed by `_insert_with_retries`: the whole
`rows_to_insert` batch is upserted into the feature table in one
`BEGIN;` … `COMMIT;`. -/
def permInsertStep (pts : String → Option ℚ) (db : DB) (osi : String) : DB :=
  { db with perm := upsertPerms db.perm (rowsToInsert pts osi (fetchSorted db.archive osi)) }

/-- The separate transaction that follows in `_process_single_osi`:
`BEGIN; DELETE FROM option_lifetimes WHERE osiKey = ?; COMMIT;`. -/
def permDeleteStep (db : DB) (osi : String) : DB :=
  { db with archive := deleteKey db.archive osi }

/-- `_process_single_osi`: fetch the key's archive rows ordered by
timestamp; with fewer than 2 rows just delete them (dead-end cleanup);
otherwise insert the permutation batch (first transaction) and then
delete the consumed archive rows (second transaction). -/
def permProcessSingleOsi (pts : String → Option ℚ) (db : DB) (osi : String) : DB :=
  if (fetchSorted db.archive osi).length < 2 then permDeleteStep db osi
  else permDeleteStep (permInsertStep pts db osi) osi

/-- The externally observable store states that `_process_single_osi`
passes through, one per transaction commit (including the initial
state).  In the pairing branch the insert commit and the delete commit
are two separate transactions, so the state after the insert and
before the delete is externally observable. -/
def permObservableStates (pts : String → Option ℚ) (db : DB) (osi : String) : List DB :=
  if (fetchSorted db.archive osi).length < 2 then
    [db, permDeleteStep db osi]
  else
    [db, permInsertStep pts db osi, permDeleteStep (permInsertStep pts db osi) osi]

/-! ## Visibility of a (contract id, timestamp) composite -/

/-- The hot table has a row for the composite `(osi, ts)`. -/
def hotHas (db : DB) (osi ts : String) : Bool :=
  db.hot.any fun r => r.osiKey = osi ∧ r.timestamp = ts

/-- The archive table has a row for the composite `(osi, ts)`. -/
def archiveHas (db : DB) (osi ts : String) : Bool :=
  db.archive.any fun r => r.osiKey = osi ∧ r.timestamp = ts

/-- The feature table has a row for the composite `(osi, ts)` (as its
buy or sell side). -/
def permHas (db : DB) (osi ts : String) : Bool :=
  db.perm.any fun r => r.osiKey = osi ∧ (r.buy_timestamp = ts ∨ r.sell_timestamp = ts)

/-- The at-most-one-table visibility invariant for one composite. -/
def atMostOneTable (db : DB) (osi ts : String) : Bool :=
  ((if hotHas db osi ts then 1 else 0) +
   (if archiveHas db osi ts then 1 else 0) +
   (if permHas db osi ts then 1 else 0) : Nat) ≤ 1

/-! ## Store contention and the per-key retry loop (`_process_one_batch`) -/

/-- What the store does on one attempted per-key transaction:
`ok` = the transaction commits; `busy` = `sqlite3.OperationalError`
(rolled back, retried with backoff); `fatal` = any other exception
(rolled back, not retried). -/
inductive StoreOutcome
  | ok
  | busy
  | fatal
  deriving DecidableEq, Repr

/-- The retry loop of `_process_one_batch` for one key, driven by an
oracle giving the store's outcome for each (1-based) attempt number:
`attempts = 0; while attempts < max_retries_per_osi and not success:`
each busy attempt rolls back, sleeps `0.1 * attempts` seconds and
retries; a fatal attempt rolls back and abandons the key; a successful
attempt commits the key's transaction.  `fuel` is the number of
attempts still allowed; `delays` accumulates the backoff sleeps in
reverse order. -/
def ltRetryAux (oracle : Nat → StoreOutcome) (cfg : LifetimeCfg) (db : DB)
    (osi : String) : Nat → Nat → List ℚ → LTResult × List ℚ
  | 0, _, delays => (⟨db, 0, 0⟩, delays.reverse)
  | fuel + 1, attempt, delays =>
    match oracle attempt with
    | .ok => (lifetimeProcessOsi cfg db osi, delays.reverse)
    | .busy =>
      ltRetryAux oracle cfg db osi fuel (attempt + 1) (((attempt : ℚ) / 10) :: delays)
    | .fatal => (⟨db, 0, 0⟩, delays.reverse)

/-- Processing of one key inside `_process_one_batch`, with up to
`max_retries_per_osi` attempts; returns the resulting store state,
counter contributions, and the backoff sleeps performed. -/
def ltProcessKey (oracle : String → Nat → StoreOutcome) (cfg : LifetimeCfg)
    (db : DB) (osi : String) : LTResult × List ℚ :=
  ltRetryAux (oracle osi) cfg db osi cfg.maxRetriesPerOsi 1 []

/-- Accumulated state of the `for osi in osi_keys:` loop of
`_process_one_batch`. -/
structure BatchAcc where
  db : DB
  archived : Nat
  deletedSmall : Nat
  deriving DecidableEq, Repr

/-- One iteration of the key loop: process the key (with retries) and
add its counter contributions; no outcome of one key stops the loop. -/
def ltBatchStep (oracle : String → Nat → StoreOutcome) (cfg : LifetimeCfg)
    (acc : BatchAcc) (osi : String) : BatchAcc :=
  let r := (ltProcessKey oracle cfg acc.db osi).1
  ⟨r.db, acc.archived + r.archivedInc, acc.deletedSmall + r.deletedSmallInc⟩

/-- The key loop of `_process_one_batch` over a list of candidate
keys. -/
def ltFoldKeys (oracle : String → Nat → StoreOutcome) (cfg : LifetimeCfg)
    (acc : BatchAcc) (keys : List String) : BatchAcc :=
  keys.foldl (ltBatchStep oracle cfg) acc

/-- `_process_one_batch`: select up to `batch_size` candidate keys,
then process each in turn. -/
def ltProcessOneBatch (oracle : String → Nat → StoreOutcome) (cfg : LifetimeCfg)
    (db : DB) : BatchAcc :=
  ltFoldKeys oracle cfg ⟨db, 0, 0⟩ (selectCandidates db cfg.batchSize)

/-- The per-OSI loop of the Permutation Generator's `_process_batch`,
driven by an oracle saying whether processing that key raises (`true` =
some exception escapes `_process_single_osi`; the rolled-back partial
transaction leaves the store unchanged, the error is logged, and the
loop continues with the next key). -/
def permFoldKeys (pts : String → Option ℚ) (raises : String → Bool)
    (db : DB) (keys : List String) : DB :=
  keys.foldl (fun acc osi => if raises osi then acc else permProcessSingleOsi pts acc osi) db

/-! ## Feature-table schema evolution (`_init_perm_table`) -/

/-- Columns never duplicated as `buy_`/`sell_` columns
(`_RESERVED_COLUMNS`). -/
def reservedColumns : List String :=
  ["osiKey", "timestamp", "buy_timestamp", "sell_timestamp", "processed"]

/-- Substring test used to model Python's `in` on strings. -/
def strContains (s pat : String) : Bool :=
  decide (pat.data <:+: s.data)

/-- Python's default `str.strip()` whitespace set. -/
def isPySpace (c : Char) : Bool :=
  c = ' ' || c = '\t' || c = '\n' || c = '\r' || c = '\x0b' || c = '\x0c'

/-- Python `s.strip().upper()` on the character list of a string. -/
def pyStripUpper (s : String) : String :=
  String.mk
    ((((s.data.dropWhile isPySpace).reverse.dropWhile isPySpace).reverse).map Char.toUpper)

/-- `_normalize_sql_type`: map a PRAGMA type string to one of
`INTEGER`, `REAL`, `TEXT` (empty or missing types and unknown types
fall back to `REAL`). -/
def normalizeSqlType (t : Option String) : String :=
  match t with
  | none => "REAL"
  | some t0 =>
    if t0 = "" then "REAL"
    else
      let tt := pyStripUpper t0
      if strContains tt "INT" then "INTEGER"
      else if strContains tt "CHAR" || strContains tt "CLOB" || strContains tt "TEXT" then "TEXT"
      else if strContains tt "REAL" || strContains tt "FLOA" || strContains tt "DOUB" then "REAL"
      else "REAL"

/-- A table schema: column (name, declared type) pairs in order, as
returned by `PRAGMA table_info`. -/
abbrev Schema : Type := List (String × String)

/-- The column names of a schema. -/
def Schema.names (s : Schema) : List String := s.map fun c => c.1

/-- The `buy_sell_defs` list of `_init_perm_table`: for each
non-reserved archive column, a buy-prefixed and a sell-prefixed column
with the source column's normalized affinity. -/
def buySellDefs (snapshotSchema : List (String × Option String)) : Schema :=
  snapshotSchema.flatMap fun c =>
    if c.1 ∈ reservedColumns then []
    else [("buy_" ++ c.1, normalizeSqlType c.2), ("sell_" ++ c.1, normalizeSqlType c.2)]

/-- The `delta_defs` list of `_init_perm_table`: a REAL delta column
for each non-reserved numeric archive column. -/
def deltaDefs (snapshotSchema : List (String × Option String)) : Schema :=
  snapshotSchema.flatMap fun c =>
    if c.1 ∈ reservedColumns then []
    else if normalizeSqlType c.2 = "REAL" || normalizeSqlType c.2 = "INTEGER" then
      [("delta_" ++ c.1, "REAL")]
    else []

/-- The `computed_defs` list: the three computed metric columns. -/
def computedDefs : Schema :=
  [("hold_seconds", "REAL"), ("profit", "REAL"), ("return_pct", "REAL")]

/-- Insertion into the `desired_columns` Python dict: an existing key
keeps its position and gets the new value; a new key is appended. -/
def dictInsert (d : Schema) (kv : String × String) : Schema :=
  if d.any fun c => c.1 = kv.1 then
    d.map fun c => if c.1 = kv.1 then (c.1, kv.2) else c
  else d ++ [kv]

/-- The `desired_columns` map of `_init_perm_table`, in insertion
order. -/
def desiredColumns (snapshotSchema : List (String × Option String)) : Schema :=
  (buySellDefs snapshotSchema ++ deltaDefs snapshotSchema ++ computedDefs).foldl dictInsert
    [("osiKey", "TEXT"), ("buy_timestamp", "TEXT"), ("sell_timestamp", "TEXT")]

/-- The feature table as seen by the migration: its current schema and
its current rows (`Row` left abstract: `ALTER TABLE … ADD COLUMN` never
touches row contents, and absent columns read as NULL). -/
structure PermTable (Row : Type) where
  columns : Schema
  rows : List Row

/-- The existing-table branch of `_init_perm_table`: compute `to_add`
as the desired columns missing from the existing schema (snapshotted
once, before any addition), then `ALTER TABLE … ADD COLUMN` each; no
column is dropped, renamed, or retyped, and rows are untouched. -/
def migratePermTable {Row : Type} (snapshotSchema : List (String × Option String))
    (tbl : PermTable Row) : PermTable Row :=
  { columns :=
      tbl.columns ++
        (desiredColumns snapshotSchema).filter fun c => ¬ tbl.columns.any fun e => e.1 = c.1
    rows := tbl.rows }

/-! ## Concrete fixtures used by witnesses and counterexamples -/

/-- A snapshot row with the given key, timestamp, `daysToExpiration` and
`lastPrice`, all other nullable columns NULL. -/
def mkSnap (osi ts : String) (dte price : Option ℚ) : Snap :=
  { osiKey := osi, timestamp := ts, symbol := none, optionType := none,
    strikePrice := none, lastPrice := price, bid := none, ask := none,
    bidSize := none, askSize := none, volume := none, openInterest := none,
    nearPrice := none, inTheMoney := none, delta := none, gamma := none,
    theta := none, vega := none, rho := none, iv := none,
    daysToExpiration := dte, spread := none, midPrice := none, moneyness := none }

/-- A concrete timestamp parse function: the fixture timestamps parse
to 10, 25 and 40 epoch seconds; everything else fails to parse. -/
def pts1 : String → Option ℚ := fun s =>
  if s = "T10" then some 10 else if s = "T25" then some 25 else
  if s = "T40" then some 40 else none

def snapA : Snap := mkSnap "K" "T10" (some (-1)) (some 2)

def snapB : Snap := mkSnap "K" "T25" (some (-2)) (some 5)

def snapC : Snap := mkSnap "K" "T40" (some (-3)) (some 7)

/-- A store holding two archived rows for contract `K`, as left by the
Lifetime Archiver. -/
def dbTwo : DB := { hot := [], archive := [snapA, snapB], perm := [] }

/-- A store holding three archived rows for contract `K` (out of
timestamp order, as physical row order may be). -/
def dbThree : DB := { hot := [], archive := [snapB, snapA, snapC], perm := [] }

/-- A store whose only hot row has a NULL `daysToExpiration`. -/
def dbNull : DB := { hot := [mkSnap "K" "t1" none none], archive := [], perm := [] }

/-- A store where contract `K` has one expired hot row and one
still-active hot row (`daysToExpiration = 5`), as after a late-arriving
observation lands between candidate selection and the per-key move. -/
def dbActive : DB :=
  { hot := [mkSnap "K" "t1" (some (-1)) none, mkSnap "K" "t2" (some 5) none],
    archive := [], perm := [] }

/-- A store where contract `K` has a single expired hot row. -/
def dbShort : DB :=
  { hot := [mkSnap "K" "t1" (some (-1)) (some 3)], archive := [], perm := [] }

def cfgMin2 : LifetimeCfg := { batchSize := 500, minSnapshots := 2, maxRetriesPerOsi := 3 }

def cfgMin5 : LifetimeCfg := { batchSize := 500, minSnapshots := 5, maxRetriesPerOsi := 3 }

/-- An oracle under which every store access reports busy. -/
def oracleBusy : String → Nat → StoreOutcome := fun _ _ => .busy

/-- A hot row counts as "still active" when its `daysToExpiration`
value is present and strictly positive. -/
def hasActiveDte (r : Snap) : Bool :=
  match r.daysToExpiration with
  | some d => decide (0 < d)
  | none => false

/-! ## Helper lemmas -/

theorem string_data_inj : ∀ {s t : String}, s.data = t.data → s = t := by
  intro s t h
  exact congrArg String.mk h

theorem rowsFor_deleteKey (t : List Snap) (osi : String) :
    rowsFor (deleteKey t osi) osi = [] := by
  rw [List.eq_nil_iff_forall_not_mem]
  intro r hr
  simp only [rowsFor, deleteKey, List.mem_filter, decide_eq_true_eq, ne_eq,
    Bool.not_eq_true, decide_eq_false_iff_not] at hr
  exact hr.1.2 hr.2

theorem fetchSorted_deleteKey (t : List Snap) (osi : String) :
    fetchSorted (deleteKey t osi) osi = [] := by
  rw [fetchSorted, rowsFor_deleteKey]
  rfl

theorem deleteKey_deleteKey (t : List Snap) (osi : String) :
    deleteKey (deleteKey t osi) osi = deleteKey t osi := by
  rw [deleteKey, deleteKey, List.filter_filter]
  exact List.filter_congr fun r _ => by cases h : decide (r.osiKey ≠ osi) <;> simp [h]

theorem two_mul_length_permPairs :
    ∀ l : List Snap, 2 * (permPairs l).length = l.length * (l.length - 1)
  | [] => rfl
  | x :: rest => by
    have ih := two_mul_length_permPairs rest
    simp only [permPairs, List.length_append, List.length_map, List.length_cons]
    cases hn : rest.length with
    | zero => rw [hn] at ih; omega
    | succ m =>
      rw [hn] at ih
      simp only [Nat.add_sub_cancel] at ih
      calc 2 * (m + 1 + (permPairs rest).length)
          = 2 * (m + 1) + 2 * (permPairs rest).length := by ring
        _ = 2 * (m + 1) + (m + 1) * m := by rw [ih]
        _ = (m + 1 + 1) * (m + 1 + 1 - 1) := by
            simp only [Nat.add_sub_cancel]
            ring

theorem length_rowsToInsert (pts : String → Option ℚ) (osi : String) (l : List Snap) :
    (rowsToInsert pts osi l).length = l.length * (l.length - 1) / 2 := by
  have h := two_mul_length_permPairs l
  rw [rowsToInsert, List.length_map, ← h, Nat.mul_div_cancel_left _ (by norm_num : 0 < 2)]

theorem mem_permPairs_of_indices :
    ∀ (l : List Snap) (i j : Nat), i < j → j < l.length →
      (l.getD i default, l.getD j default) ∈ permPairs l
  | [], _, _, _, hj => absurd hj (by simp)
  | x :: rest, i, j, hij, hj => by
    cases i with
    | zero =>
      cases j with
      | zero => exact absurd hij (lt_irrefl 0)
      | succ j2 =>
        simp only [List.getD_cons_zero, List.getD_cons_succ, permPairs]
        apply List.mem_append_left
        apply List.mem_map.mpr
        refine ⟨rest.getD j2 default, ?_, rfl⟩
        have hj2 : j2 < rest.length := by simpa using hj
        rw [List.getD_eq_getElem _ _ hj2]
        exact List.getElem_mem _
    | succ i2 =>
      cases j with
      | zero => exact absurd hij (by omega)
      | succ j2 =>
        simp only [List.getD_cons_succ, permPairs]
        exact List.mem_append_right _
          (mem_permPairs_of_indices rest i2 j2 (by omega) (by simpa using hj))

theorem indices_of_mem_permPairs :
    ∀ (l : List Snap) (p : Snap × Snap), p ∈ permPairs l →
      ∃ i j, i < j ∧ j < l.length ∧ p = (l.getD i default, l.getD j default)
  | [], p, hp => absurd hp (by simp [permPairs])
  | x :: rest, p, hp => by
    simp only [permPairs, List.mem_append, List.mem_map] at hp
    rcases hp with ⟨y, hy, hpe⟩ | hp
    · obtain ⟨k, hk, hky⟩ := List.mem_iff_getElem.mp hy
      refine ⟨0, k + 1, Nat.succ_pos k, by simpa using hk, ?_⟩
      rw [← hpe, List.getD_cons_zero, List.getD_cons_succ,
        List.getD_eq_getElem _ _ hk, hky]
    · obtain ⟨i, j, hij, hj, hpe⟩ := indices_of_mem_permPairs rest p hp
      exact ⟨i + 1, j + 1, by omega, by simpa using hj, by simpa [List.getD_cons_succ] using hpe⟩

theorem rel_of_mem_permPairs {R : Snap → Snap → Prop} :
    ∀ l : List Snap, l.Pairwise R → ∀ p ∈ permPairs l, R p.1 p.2
  | [], _, p, hp => absurd hp (by simp [permPairs])
  | x :: rest, hpw, p, hp => by
    rcases List.pairwise_cons.mp hpw with ⟨hx, hrest⟩
    simp only [permPairs, List.mem_append, List.mem_map] at hp
    rcases hp with ⟨y, hy, hpe⟩ | hp
    · rw [← hpe]
      exact hx y hy
    · exact rel_of_mem_permPairs rest hrest p hp

/-! ## Claim theorems -/

/-- C2: for a contract whose archive table holds exactly N rows with
N ≥ 2, processing inserts exactly N·(N−1)/2 feature rows — one per
index pair i < j of the chronologically sorted history, with the buy
side taken from row i and the sell side from row j; for N < 2 it
inserts no feature rows and deletes the contract's archive rows. -/
theorem perm_expansion_count (pts : String → Option ℚ) (db : DB) (osi : String) :
    (2 ≤ (fetchSorted db.archive osi).length →
      (rowsToInsert pts osi (fetchSorted db.archive osi)).length =
        (fetchSorted db.archive osi).length *
          ((fetchSorted db.archive osi).length - 1) / 2 ∧
      (∀ i j, i < j → j < (fetchSorted db.archive osi).length →
        buildPermRow pts osi ((fetchSorted db.archive osi).getD i default)
            ((fetchSorted db.archive osi).getD j default) ∈
          rowsToInsert pts osi (fetchSorted db.archive osi)) ∧
      (∀ row ∈ rowsToInsert pts osi (fetchSorted db.archive osi),
        ∃ i j, i < j ∧ j < (fetchSorted db.archive osi).length ∧
          row = buildPermRow pts osi ((fetchSorted db.archive osi).getD i default)
            ((fetchSorted db.archive osi).getD j default)) ∧
      (permProcessSingleOsi pts db osi).perm =
        upsertPerms db.perm (rowsToInsert pts osi (fetchSorted db.archive osi))) ∧
    ((fetchSorted db.archive osi).length < 2 →
      (permProcessSingleOsi pts db osi).perm = db.perm ∧
      rowsFor (permProcessSingleOsi pts db osi).archive osi = []) := by
  constructor
  · intro h2
    refine ⟨length_rowsToInsert pts osi _, ?_, ?_, ?_⟩
    · intro i j hij hj
      exact List.mem_map.mpr ⟨_, mem_permPairs_of_indices _ i j hij hj, rfl⟩
    · intro row hrow
      simp only [rowsToInsert, List.mem_map] at hrow
      obtain ⟨p, hp, hpe⟩ := hrow
      obtain ⟨i, j, hij, hj, hpe2⟩ := indices_of_mem_permPairs _ p hp
      exact ⟨i, j, hij, hj, by rw [← hpe, hpe2]⟩
    · rw [permProcessSingleOsi, if_neg (not_lt.mpr h2)]
      rfl
  · intro h2
    rw [permProcessSingleOsi, if_pos h2]
    exact ⟨rfl, rowsFor_deleteKey _ _⟩

/-- Witness for C2 at a contract with exactly 3 archived rows: the
insert batch has 3·2/2 = 3 rows and is upserted into the feature
table. -/
theorem perm_expansion_count_witness :
    (rowsToInsert pts1 "K" (fetchSorted dbThree.archive "K")).length = 3 ∧
    (permProcessSingleOsi pts1 dbThree "K").perm =
      upsertPerms dbThree.perm (rowsToInsert pts1 "K" (fetchSorted dbThree.archive "K")) := by
  have h := (perm_expansion_count pts1 dbThree "K").1 (by decide)
  refine ⟨?_, h.2.2.2⟩
  have h3 : (fetchSorted dbThree.archive "K").length = 3 := by decide
  rw [h.1, h3]

/-- C6: in every feature row, `hold_seconds` is the sell timestamp
minus the buy timestamp when both parse (0 when either fails to
parse), `profit` is sell last price minus buy last price, and
`return_pct` is `profit / buy_price` when the buy price is non-zero
and 0 when it is zero or absent. -/
theorem build_perm_row_fields (pts : String → Option ℚ) (osi : String) (buy sell : Snap) :
    (∀ b s, pts buy.timestamp = some b → pts sell.timestamp = some s →
      (buildPermRow pts osi buy sell).hold_seconds = s - b) ∧
    (pts buy.timestamp = none ∨ pts sell.timestamp = none →
      (buildPermRow pts osi buy sell).hold_seconds = 0) ∧
    (buildPermRow pts osi buy sell).profit =
      toFloat sell.lastPrice - toFloat buy.lastPrice ∧
    (toFloat buy.lastPrice ≠ 0 → (buildPermRow pts osi buy sell).return_pct =
      (buildPermRow pts osi buy sell).profit / toFloat buy.lastPrice) ∧
    (toFloat buy.lastPrice = 0 → (buildPermRow pts osi buy sell).return_pct = 0) ∧
    (buy.lastPrice = none → (buildPermRow pts osi buy sell).return_pct = 0) := by
  refine ⟨?_, ?_, rfl, ?_, ?_, ?_⟩
  · intro b s hb hs
    simp [buildPermRow, hb, hs]
  · intro h
    rcases h with h | h
    · simp [buildPermRow, h]
    · rcases hb : pts buy.timestamp with _ | b <;> simp [buildPermRow, hb, h]
  · intro h
    simp [buildPermRow, h]
  · intro h
    simp [buildPermRow, h]
  · intro h
    simp [buildPermRow, toFloat, h]

/-- Witness for C6 on a concrete pair of snapshots whose timestamps
parse to 10 and 25 and whose buy price is 2 ≠ 0. -/
theorem build_perm_row_fields_witness :
    (buildPermRow pts1 "K" snapA snapB).hold_seconds = 25 - 10 ∧
    (buildPermRow pts1 "K" snapA snapB).profit =
      toFloat snapB.lastPrice - toFloat snapA.lastPrice ∧
    (buildPermRow pts1 "K" snapA snapB).return_pct =
      (buildPermRow pts1 "K" snapA snapB).profit / toFloat snapA.lastPrice := by
  have h := build_perm_row_fields pts1 "K" snapA snapB
  exact ⟨h.1 10 25 (by decide) (by decide), h.2.2.1, h.2.2.2.1 (by decide)⟩

/-- C10: every produced feature row has buy timestamp strictly before
sell timestamp, because the key's archive rows are fetched in
ascending timestamp order, timestamps are unique per key by the
primary key (the Nodup hypothesis), and pairs take the buy strictly
before the sell. -/
theorem perm_buy_before_sell (pts : String → Option ℚ) (db : DB) (osi : String)
    (hnd : ((rowsFor db.archive osi).map fun r => r.timestamp).Nodup) :
    ∀ row ∈ rowsToInsert pts osi (fetchSorted db.archive osi),
      tsLt row.buy_timestamp row.sell_timestamp = true := by
  intro row hrow
  have hsorted : (fetchSorted db.archive osi).Sorted tsLe :=
    List.sorted_insertionSort tsLe (rowsFor db.archive osi)
  have hperm : List.Perm (fetchSorted db.archive osi) (rowsFor db.archive osi) :=
    List.perm_insertionSort tsLe (rowsFor db.archive osi)
  have hnd2 : ((fetchSorted db.archive osi).map fun r => r.timestamp).Nodup :=
    ((hperm.map _).nodup_iff).mpr hnd
  have hnd3 : (fetchSorted db.archive osi).Pairwise fun a b => a.timestamp ≠ b.timestamp :=
    List.pairwise_map.mp hnd2
  have hlt : (fetchSorted db.archive osi).Pairwise
      fun a b => tsLt a.timestamp b.timestamp = true := by
    refine (hsorted.and hnd3).imp ?_
    intro a b hab
    exact lexLt_of_lexLe_of_ne _ _ hab.1 fun h => hab.2 (string_data_inj h)
  simp only [rowsToInsert, List.mem_map] at hrow
  obtain ⟨p, hp, hpe⟩ := hrow
  rw [← hpe]
  exact rel_of_mem_permPairs _ hlt p hp

/-- Witness for C10 on a concrete two-row archive with distinct
timestamps. -/
theorem perm_buy_before_sell_witness :
    tsLt (buildPermRow pts1 "K" snapA snapB).buy_timestamp
      (buildPermRow pts1 "K" snapA snapB).sell_timestamp = true := by
  have hmem : buildPermRow pts1 "K" snapA snapB ∈
      rowsToInsert pts1 "K" (fetchSorted dbTwo.archive "K") := by
    have heq : rowsToInsert pts1 "K" (fetchSorted dbTwo.archive "K") =
        [buildPermRow pts1 "K" snapA snapB] := rfl
    rw [heq]
    exact List.mem_singleton.mpr rfl
  exact perm_buy_before_sell pts1 dbTwo "K" (by decide) _ hmem

theorem fetchSorted_length (t : List Snap) (osi : String) :
    (fetchSorted t osi).length = (rowsFor t osi).length :=
  (List.perm_insertionSort tsLe (rowsFor t osi)).length_eq

theorem fetchSorted_ne_nil (t : List Snap) (osi : String)
    (h : rowsFor t osi ≠ []) : (fetchSorted t osi).isEmpty = false := by
  cases he : (fetchSorted t osi).isEmpty
  · rfl
  · exfalso
    apply h
    have h0 : (fetchSorted t osi).length = 0 := by
      rw [List.isEmpty_iff] at he
      rw [he]
      rfl
    rw [fetchSorted_length] at h0
    exact List.length_eq_zero.mp h0

/-- C5: a contract whose hot rows are all expired and number fewer than
the configured minimum has all of its hot rows deleted, the discarded
counter incremented by one, and no archive or feature rows created. -/
theorem lifetime_discard_small (cfg : LifetimeCfg) (db : DB) (osi : String)
    (_hexp : ∀ r ∈ rowsFor db.hot osi, hasActiveDte r = false)
    (hne : rowsFor db.hot osi ≠ [])
    (hsmall : (rowsFor db.hot osi).length < cfg.minSnapshots) :
    (lifetimeProcessOsi cfg db osi).db.hot = deleteKey db.hot osi ∧
    rowsFor (lifetimeProcessOsi cfg db osi).db.hot osi = [] ∧
    (lifetimeProcessOsi cfg db osi).db.archive = db.archive ∧
    (lifetimeProcessOsi cfg db osi).db.perm = db.perm ∧
    (lifetimeProcessOsi cfg db osi).deletedSmallInc = 1 ∧
    (lifetimeProcessOsi cfg db osi).archivedInc = 0 := by
  have hie := fetchSorted_ne_nil db.hot osi hne
  have hlen : (fetchSorted db.hot osi).length < cfg.minSnapshots := by
    rw [fetchSorted_length]
    exact hsmall
  have hres : lifetimeProcessOsi cfg db osi =
      ⟨{ db with hot := deleteKey db.hot osi }, 0, 1⟩ := by
    rw [lifetimeProcessOsi]
    simp only [hie, Bool.false_eq_true, if_false, if_pos hlen]
  rw [hres]
  exact ⟨rfl, rowsFor_deleteKey db.hot osi, rfl, rfl, rfl, rfl⟩

/-- Witness for C5: one expired hot row, configured minimum 5. -/
theorem lifetime_discard_small_witness :
    rowsFor (lifetimeProcessOsi cfgMin5 dbShort "K").db.hot "K" = [] ∧
    (lifetimeProcessOsi cfgMin5 dbShort "K").db.archive = dbShort.archive ∧
    (lifetimeProcessOsi cfgMin5 dbShort "K").db.perm = dbShort.perm ∧
    (lifetimeProcessOsi cfgMin5 dbShort "K").deletedSmallInc = 1 := by
  have h := lifetime_discard_small cfgMin5 dbShort "K" (by decide) (by decide) (by decide)
  exact ⟨h.2.1, h.2.2.1, h.2.2.2.1, h.2.2.2.2.1⟩

/-- C3 counterexample: the claim asserts a defensive re-check aborts
the move when a still-active row is present at move time, so that the
archive insert never commits.  In the source the per-key move
(`_process_one_batch`, lines 266–295) refetches rows by key only and
never re-checks `daysToExpiration`; on a state where key `K` has an
expired row and a still-active row (`daysToExpiration = 5`, e.g. a
late-arriving observation landed after candidate selection), the move
archives both rows: the archive insert commits and no hot row of the
key remains. -/
theorem lifetime_no_recheck_counterexample :
    (∃ r ∈ rowsFor dbActive.hot "K", hasActiveDte r = true) ∧
    (lifetimeProcessOsi cfgMin2 dbActive "K").db.archive ≠ dbActive.archive ∧
    rowsFor (lifetimeProcessOsi cfgMin2 dbActive "K").db.hot "K" = [] ∧
    (lifetimeProcessOsi cfgMin2 dbActive "K").archivedInc = 1 := by
  refine ⟨⟨mkSnap "K" "t2" (some 5) none, by decide, by decide⟩, by decide, by decide, by decide⟩

/-- C3 amended: there is no defensive re-check.  Whenever the key's
current hot rows meet the configured minimum, the move proceeds
unconditionally: all current hot rows of the key — including any
still-active ones — are inserted into the archive table (the insert
commits) and deleted from the hot table. -/
theorem lifetime_archives_despite_active (cfg : LifetimeCfg) (db : DB) (osi : String)
    (hactive : ∃ r ∈ rowsFor db.hot osi, hasActiveDte r = true)
    (hmin : cfg.minSnapshots ≤ (rowsFor db.hot osi).length) :
    (lifetimeProcessOsi cfg db osi).archivedInc = 1 ∧
    (lifetimeProcessOsi cfg db osi).db.archive =
      upsertSnaps db.archive (fetchSorted db.hot osi) ∧
    (lifetimeProcessOsi cfg db osi).db.hot = deleteKey db.hot osi := by
  obtain ⟨r, hr, _⟩ := hactive
  have hne : rowsFor db.hot osi ≠ [] := fun h => by rw [h] at hr; exact (List.not_mem_nil r) hr
  have hie := fetchSorted_ne_nil db.hot osi hne
  have hlen : ¬ (fetchSorted db.hot osi).length < cfg.minSnapshots := by
    rw [fetchSorted_length]
    exact not_lt.mpr hmin
  have hres : lifetimeProcessOsi cfg db osi =
      ⟨{ db with hot := deleteKey db.hot osi,
                 archive := upsertSnaps db.archive (fetchSorted db.hot osi) }, 1, 0⟩ := by
    rw [lifetimeProcessOsi]
    simp only [hie, Bool.false_eq_true, if_false, if_neg hlen]
  rw [hres]
  exact ⟨rfl, rfl, rfl⟩

/-- Witness for the amended C3 on the still-active fixture. -/
theorem lifetime_archives_despite_active_witness :
    (lifetimeProcessOsi cfgMin2 dbActive "K").archivedInc = 1 ∧
    (lifetimeProcessOsi cfgMin2 dbActive "K").db.archive =
      upsertSnaps dbActive.archive (fetchSorted dbActive.hot "K") := by
  have h := lifetime_archives_despite_active cfgMin2 dbActive "K"
    ⟨mkSnap "K" "t2" (some 5) none, by decide, by decide⟩ (by decide)
  exact ⟨h.1, h.2.1⟩

theorem sqlMax_eq_none_iff (l : List ℚ) : sqlMax l = none ↔ l = [] := by
  cases l with
  | nil => simp [sqlMax]
  | cons x xs =>
    simp only [sqlMax]
    cases h : sqlMax xs <;> simp

theorem sqlMax_spec :
    ∀ (l : List ℚ) (m : ℚ), sqlMax l = some m → m ∈ l ∧ ∀ x ∈ l, x ≤ m
  | [], m, h => by simp [sqlMax] at h
  | x :: xs, m, h => by
    simp only [sqlMax] at h
    cases h2 : sqlMax xs with
    | none =>
      rw [h2] at h
      have hx : m = x := by simpa using h.symm
      have hxs : xs = [] := (sqlMax_eq_none_iff xs).mp h2
      subst hx
      subst hxs
      simp
    | some m2 =>
      rw [h2] at h
      have hm : m = max x m2 := by simpa using h.symm
      obtain ⟨hmem, hall⟩ := sqlMax_spec xs m2 h2
      subst hm
      constructor
      · rcases max_choice x m2 with hc | hc
        · rw [hc]; exact List.mem_cons_self x xs
        · rw [hc]; exact List.mem_cons_of_mem x hmem
      · intro y hy
        rcases List.mem_cons.mp hy with hy | hy
        · rw [hy]; exact le_max_left x m2
        · exact le_trans (hall y hy) (le_max_right x m2)

theorem havingMax_iff (db : DB) (k : String) :
    havingMaxDteLe0 db k = true ↔
      ((rowsFor db.hot k).filterMap fun r => r.daysToExpiration) ≠ [] ∧
      ∀ r ∈ rowsFor db.hot k, hasActiveDte r = false := by
  constructor
  · intro h
    rw [havingMaxDteLe0] at h
    cases hm : sqlMax ((rowsFor db.hot k).filterMap fun r => r.daysToExpiration) with
    | none => rw [hm] at h; simp at h
    | some m =>
      rw [hm] at h
      simp only [decide_eq_true_eq] at h
      obtain ⟨hmem, hall⟩ := sqlMax_spec _ m hm
      constructor
      · intro he
        rw [he] at hmem
        exact (List.not_mem_nil m) hmem
      · intro r hr
        rw [hasActiveDte]
        cases hd : r.daysToExpiration with
        | none => rfl
        | some d =>
          have hdm : d ∈ (rowsFor db.hot k).filterMap fun r => r.daysToExpiration :=
            List.mem_filterMap.mpr ⟨r, hr, hd⟩
          simp only [decide_eq_false_iff_not, not_lt]
          exact le_trans (hall d hdm) h
  · rintro ⟨hne, hall⟩
    rw [havingMaxDteLe0]
    cases hm : sqlMax ((rowsFor db.hot k).filterMap fun r => r.daysToExpiration) with
    | none => exact absurd ((sqlMax_eq_none_iff _).mp hm) hne
    | some m =>
      simp only [decide_eq_true_eq]
      obtain ⟨hmem, _⟩ := sqlMax_spec _ m hm
      obtain ⟨r, hr, hd⟩ := List.mem_filterMap.mp hmem
      have hra := hall r hr
      rw [hasActiveDte, hd] at hra
      simp only [decide_eq_false_iff_not, not_lt] at hra
      exact hra

/-- C4 counterexample: the claim says a key is eligible exactly when it
appears in the hot table and none of its rows has days-to-expiration
> 0.  A key whose only hot row has a NULL `daysToExpiration` satisfies
that, yet `HAVING MAX(daysToExpiration) <= 0` evaluates to NULL for it
(the aggregate ignores NULLs and is NULL on an all-NULL group), so the
key is never selected. -/
theorem select_candidates_counterexample :
    ("K" ∈ hotKeys dbNull) ∧
    (∀ r ∈ rowsFor dbNull.hot "K", hasActiveDte r = false) ∧
    selectCandidates dbNull 10 = [] := by
  refine ⟨by decide, by decide, by decide⟩

/-- C4 amended: candidate selection returns the first `batch_size`
grouped keys passing the aggregate filter; a key passes the filter
exactly when it appears in the hot table, at least one of its rows has
a non-NULL days-to-expiration, and no row of it has days-to-expiration
> 0 (NULL values are ignored by the MAX aggregate). -/
theorem select_candidates_spec (db : DB) (n : Nat) :
    (selectCandidates db n).length ≤ n ∧
    selectCandidates db n = ((hotKeys db).filter (havingMaxDteLe0 db)).take n ∧
    (∀ k, k ∈ hotKeys db ↔ ∃ r ∈ db.hot, r.osiKey = k) ∧
    (∀ k, havingMaxDteLe0 db k = true ↔
      ((rowsFor db.hot k).filterMap fun r => r.daysToExpiration) ≠ [] ∧
      ∀ r ∈ rowsFor db.hot k, hasActiveDte r = false) := by
  refine ⟨List.length_take_le n _, rfl, ?_, fun k => havingMax_iff db k⟩
  intro k
  rw [hotKeys, List.mem_dedup, List.mem_map]

/-- Witness for the amended C4: a batch over the one-expired-row store
selects key `K`. -/
theorem select_candidates_spec_witness :
    (selectCandidates dbShort 10).length ≤ 10 ∧
    havingMaxDteLe0 dbShort "K" = true := by
  have h := select_candidates_spec dbShort 10
  exact ⟨h.1, (h.2.2.2 "K").mpr (by decide)⟩

theorem deleteKey_of_rowsFor_nil (t : List Snap) (osi : String)
    (h : rowsFor t osi = []) : deleteKey t osi = t := by
  rw [deleteKey, List.filter_eq_self]
  intro r hr
  have h2 := List.filter_eq_nil_iff.mp h r hr
  simp only [decide_eq_true_eq] at h2
  simpa using h2

theorem permProcess_of_empty (pts : String → Option ℚ) (db : DB) (osi : String)
    (h : rowsFor db.archive osi = []) : permProcessSingleOsi pts db osi = db := by
  have hf : fetchSorted db.archive osi = [] := by
    rw [fetchSorted, h]
    rfl
  rw [permProcessSingleOsi, hf]
  simp only [List.length_nil]
  rw [if_pos (by norm_num)]
  show { db with archive := deleteKey db.archive osi } = db
  rw [deleteKey_of_rowsFor_nil db.archive osi h]

theorem lifetimeProcess_of_empty (cfg : LifetimeCfg) (db : DB) (osi : String)
    (h : rowsFor db.hot osi = []) : lifetimeProcessOsi cfg db osi = ⟨db, 0, 0⟩ := by
  have hf : fetchSorted db.hot osi = [] := by
    rw [fetchSorted, h]
    rfl
  rw [lifetimeProcessOsi, hf]
  rfl

theorem permProcess_archive (pts : String → Option ℚ) (db : DB) (osi : String) :
    (permProcessSingleOsi pts db osi).archive = deleteKey db.archive osi := by
  rw [permProcessSingleOsi]
  split <;> rfl

theorem lifetimeProcess_hot (cfg : LifetimeCfg) (db : DB) (osi : String)
    (h : rowsFor db.hot osi ≠ []) :
    (lifetimeProcessOsi cfg db osi).db.hot = deleteKey db.hot osi := by
  have hie := fetchSorted_ne_nil db.hot osi h
  rw [lifetimeProcessOsi]
  simp only [hie, Bool.false_eq_true, if_false]
  split <;> rfl

/-- C7: re-running archival or permutation generation on a key already
fully processed is a no-op on the table contents; in particular a
contract with 3 archived rows processed twice yields exactly 3 feature
rows, not 6. -/
theorem reprocessing_is_noop (pts : String → Option ℚ) (cfg : LifetimeCfg)
    (db : DB) (osi : String) :
    permProcessSingleOsi pts (permProcessSingleOsi pts db osi) osi =
      permProcessSingleOsi pts db osi ∧
    (lifetimeProcessOsi cfg (lifetimeProcessOsi cfg db osi).db osi).db =
      (lifetimeProcessOsi cfg db osi).db ∧
    (permProcessSingleOsi pts1 (permProcessSingleOsi pts1 dbThree "K") "K").perm.length = 3 ∧
    (permProcessSingleOsi pts1 dbThree "K").perm.length = 3 := by
  refine ⟨?_, ?_, by decide, by decide⟩
  · have h0 : rowsFor (permProcessSingleOsi pts db osi).archive osi = [] := by
      rw [permProcess_archive]
      exact rowsFor_deleteKey db.archive osi
    exact permProcess_of_empty pts _ osi h0
  · by_cases hE : rowsFor db.hot osi = []
    · rw [lifetimeProcess_of_empty cfg db osi hE]
      show (lifetimeProcessOsi cfg db osi).db = db
      rw [lifetimeProcess_of_empty cfg db osi hE]
    · have h0 : rowsFor (lifetimeProcessOsi cfg db osi).db.hot osi = [] := by
        rw [lifetimeProcess_hot cfg db osi hE]
        exact rowsFor_deleteKey db.hot osi
      rw [lifetimeProcess_of_empty cfg _ osi h0]

/-- C1 is refuted by evaluation: in `_process_single_osi` the insert of
the permutation batch (`_insert_with_retries`, its own
`BEGIN;`…`COMMIT;`) and the deletion of the consumed archive rows (a
second `BEGIN;`…`COMMIT;`) are separate transactions.  Starting from a
store where the invariant holds and key `K` has two archived rows, the
state after the insert commit is externally observable and has the
composite `(K, T10)` visible in BOTH the archive table and the feature
table, so the at-most-one-table invariant is violated and the insert
and delete do not happen in one atomic step. -/
theorem move_not_atomic_violation :
    permObservableStates pts1 dbTwo "K" =
      [dbTwo, permInsertStep pts1 dbTwo "K",
        permDeleteStep (permInsertStep pts1 dbTwo "K") "K"] ∧
    atMostOneTable dbTwo "K" "T10" = true ∧
    archiveHas (permInsertStep pts1 dbTwo "K") "K" "T10" = true ∧
    permHas (permInsertStep pts1 dbTwo "K") "K" "T10" = true ∧
    atMostOneTable (permInsertStep pts1 dbTwo "K") "K" "T10" = false := by
  refine ⟨rfl, by decide, by decide, by decide, by decide⟩

theorem ltRetryAux_fail (oracle : Nat → StoreOutcome) (cfg : LifetimeCfg)
    (db : DB) (osi : String) (h : ∀ n, oracle n ≠ .ok) :
    ∀ (fuel attempt : Nat) (delays : List ℚ),
      (ltRetryAux oracle cfg db osi fuel attempt delays).1 = ⟨db, 0, 0⟩
  | 0, _, _ => rfl
  | fuel + 1, attempt, delays => by
    cases ho : oracle attempt with
    | ok => exact absurd ho (h attempt)
    | busy =>
      simp only [ltRetryAux, ho]
      exact ltRetryAux_fail oracle cfg db osi h fuel (attempt + 1) _
    | fatal => simp only [ltRetryAux, ho]

theorem ltRetryAux_busy_delays (oracle : Nat → StoreOutcome) (cfg : LifetimeCfg)
    (db : DB) (osi : String) (h : ∀ n, oracle n = .busy) :
    ∀ (fuel attempt : Nat) (delays : List ℚ),
      (ltRetryAux oracle cfg db osi fuel attempt delays).2 =
        delays.reverse ++ (List.range' attempt fuel).map fun a => (a : ℚ) / 10
  | 0, attempt, delays => by simp [ltRetryAux]
  | fuel + 1, attempt, delays => by
    simp only [ltRetryAux, h attempt]
    rw [ltRetryAux_busy_delays oracle cfg db osi h fuel (attempt + 1) _]
    rw [List.range'_succ]
    simp [List.append_assoc]

theorem ltRetryAux_delays_le (oracle : Nat → StoreOutcome) (cfg : LifetimeCfg)
    (db : DB) (osi : String) :
    ∀ (fuel attempt : Nat) (delays : List ℚ),
      ((ltRetryAux oracle cfg db osi fuel attempt delays).2).length ≤
        delays.length + fuel
  | 0, _, delays => by simp [ltRetryAux]
  | fuel + 1, attempt, delays => by
    cases ho : oracle attempt with
    | ok => simp [ltRetryAux, ho]
    | busy =>
      simp only [ltRetryAux, ho]
      have h2 := ltRetryAux_delays_le oracle cfg db osi fuel (attempt + 1)
        (((attempt : ℚ) / 10) :: delays)
      simp only [List.length_cons] at h2
      omega
    | fatal => simp [ltRetryAux, ho]

/-- C8: an error while processing one key affects only that key.  If
every attempt on key `k` fails (store busy through the retry ceiling,
or an unexpected store error), the key's transaction never commits —
the store is unchanged and the counters get no contribution — while
the batch loop continues identically over the remaining keys; the
number of backoff sleeps never exceeds the configured retry ceiling,
and under persistent busy the sleeps are the linearly increasing
`0.1 · attempt` sequence.  The Permutation Generator's per-key loop
likewise skips a raising key and continues. -/
theorem batch_error_isolation (oracle : String → Nat → StoreOutcome)
    (cfg : LifetimeCfg) (acc : BatchAcc) (k : String) (ks : List String)
    (hfail : ∀ n, oracle k n ≠ .ok) :
    (ltProcessKey oracle cfg acc.db k).1 = ⟨acc.db, 0, 0⟩ ∧
    ltFoldKeys oracle cfg acc (k :: ks) = ltFoldKeys oracle cfg acc ks ∧
    (∀ db2 : DB, ((ltProcessKey oracle cfg db2 k).2).length ≤ cfg.maxRetriesPerOsi) ∧
    ((∀ n, oracle k n = .busy) →
      (ltProcessKey oracle cfg acc.db k).2 =
        (List.range' 1 cfg.maxRetriesPerOsi).map fun a => (a : ℚ) / 10) ∧
    (∀ (pts : String → Option ℚ) (raises : String → Bool) (db2 : DB) (o : String)
        (os : List String), raises o = true →
      permFoldKeys pts raises db2 (o :: os) = permFoldKeys pts raises db2 os) := by
  have h1 : (ltProcessKey oracle cfg acc.db k).1 = ⟨acc.db, 0, 0⟩ :=
    ltRetryAux_fail (oracle k) cfg acc.db k hfail cfg.maxRetriesPerOsi 1 []
  refine ⟨h1, ?_, ?_, ?_, ?_⟩
  · have hstep : ltBatchStep oracle cfg acc k = acc := by
      rw [ltBatchStep, h1]
      rfl
    rw [ltFoldKeys, List.foldl_cons, hstep]
    rfl
  · intro db2
    have h2 := ltRetryAux_delays_le (oracle k) cfg db2 k cfg.maxRetriesPerOsi 1 []
    simpa using h2
  · intro hbusy
    have h2 := ltRetryAux_busy_delays (oracle k) cfg acc.db k hbusy
      cfg.maxRetriesPerOsi 1 []
    simpa using h2
  · intro pts raises db2 o os h
    rw [permFoldKeys, List.foldl_cons, if_pos h]
    rfl

/-- Witness for C8: a key on which the store is always busy is retried
`maxRetriesPerOsi = 3` times with linear backoff and leaves the store
and counters untouched. -/
theorem batch_error_isolation_witness :
    (ltProcessKey oracleBusy cfgMin2 dbActive "K").1 = ⟨dbActive, 0, 0⟩ ∧
    (ltProcessKey oracleBusy cfgMin2 dbActive "K").2 =
      (List.range' 1 cfgMin2.maxRetriesPerOsi).map fun a => (a : ℚ) / 10 := by
  have h := batch_error_isolation oracleBusy cfgMin2 ⟨dbActive, 0, 0⟩ "K" []
    (fun n => by simp [oracleBusy])
  exact ⟨h.1, h.2.2.2.1 fun n => rfl⟩

theorem names_append (s t : Schema) : (s ++ t).names = s.names ++ t.names :=
  List.map_append _ s t

theorem mem_names_dictInsert (d : Schema) (kv : String × String) (m : String) :
    m ∈ (dictInsert d kv).names ↔ m ∈ d.names ∨ m = kv.1 := by
  rw [dictInsert]
  split
  · rename_i h
    have hnames : ((d.map fun c => if c.1 = kv.1 then (c.1, kv.2) else c).map fun c => c.1) =
        d.map fun c => c.1 := by
      rw [List.map_map]
      apply List.map_congr_left
      intro c _
      by_cases hc : c.1 = kv.1 <;> simp [hc]
    rw [Schema.names, hnames]
    constructor
    · exact fun h2 => Or.inl h2
    · rintro (h2 | h2)
      · exact h2
      · obtain ⟨c, hc, hce⟩ := List.any_eq_true.mp h
        simp only [decide_eq_true_eq] at hce
        subst h2
        rw [← hce]
        exact List.mem_map.mpr ⟨c, hc, rfl⟩
  · rw [names_append]
    simp [Schema.names]

theorem mem_names_foldl_dictInsert (l : Schema) :
    ∀ (d : Schema) (m : String),
      m ∈ (l.foldl dictInsert d).names ↔ m ∈ d.names ∨ m ∈ l.names := by
  induction l with
  | nil => intro d m; simp [Schema.names]
  | cons kv l ih =>
    intro d m
    rw [List.foldl_cons, ih, mem_names_dictInsert]
    simp only [Schema.names, List.map_cons, List.mem_cons]
    tauto

theorem mem_names_migrate {Row : Type} (ss : List (String × Option String))
    (tbl : PermTable Row) (m : String) (h : m ∈ (desiredColumns ss).names) :
    m ∈ (migratePermTable ss tbl).columns.names := by
  rw [migratePermTable]
  simp only
  rw [names_append, List.mem_append]
  by_cases hm : m ∈ Schema.names tbl.columns
  · exact Or.inl hm
  · right
    obtain ⟨c, hc, hce⟩ := List.mem_map.mp h
    refine List.mem_map.mpr ⟨c, List.mem_filter.mpr ⟨hc, ?_⟩, hce⟩
    simp only [decide_eq_true_eq]
    intro hany
    obtain ⟨e, he, hee⟩ := List.any_eq_true.mp hany
    simp only [decide_eq_true_eq] at hee
    exact hm (List.mem_map.mpr ⟨e, he, by rw [hee, hce]⟩)

theorem buySell_mem_desired (ss : List (String × Option String))
    (c : String × Option String) (hc : c ∈ ss) (hres : c.1 ∉ reservedColumns) :
    ("buy_" ++ c.1) ∈ (desiredColumns ss).names ∧
    ("sell_" ++ c.1) ∈ (desiredColumns ss).names := by
  have hb : ("buy_" ++ c.1, normalizeSqlType c.2) ∈ buySellDefs ss := by
    rw [buySellDefs]
    refine List.mem_flatMap.mpr ⟨c, hc, ?_⟩
    rw [if_neg hres]
    simp
  have hs : ("sell_" ++ c.1, normalizeSqlType c.2) ∈ buySellDefs ss := by
    rw [buySellDefs]
    refine List.mem_flatMap.mpr ⟨c, hc, ?_⟩
    rw [if_neg hres]
    simp
  constructor
  · rw [desiredColumns, mem_names_foldl_dictInsert]
    right
    rw [names_append, names_append, List.mem_append, List.mem_append]
    exact Or.inl (Or.inl (List.mem_map.mpr ⟨_, hb, rfl⟩))
  · rw [desiredColumns, mem_names_foldl_dictInsert]
    right
    rw [names_append, names_append, List.mem_append, List.mem_append]
    exact Or.inl (Or.inl (List.mem_map.mpr ⟨_, hs, rfl⟩))

theorem delta_mem_desired (ss : List (String × Option String))
    (c : String × Option String) (hc : c ∈ ss) (hres : c.1 ∉ reservedColumns)
    (hnum : normalizeSqlType c.2 = "REAL" ∨ normalizeSqlType c.2 = "INTEGER") :
    ("delta_" ++ c.1) ∈ (desiredColumns ss).names := by
  have hd : ("delta_" ++ c.1, "REAL") ∈ deltaDefs ss := by
    rw [deltaDefs]
    refine List.mem_flatMap.mpr ⟨c, hc, ?_⟩
    rw [if_neg hres, if_pos]
    · simp
    · rcases hnum with h | h <;> simp [h]
  rw [desiredColumns, mem_names_foldl_dictInsert]
  right
  rw [names_append, names_append, List.mem_append, List.mem_append]
  exact Or.inl (Or.inr (List.mem_map.mpr ⟨_, hd, rfl⟩))

/-- C9: at Permutation Generator startup, the migration of an existing
feature table only appends columns — for every non-reserved archive
column a buy- and a sell-prefixed column are present afterwards (and a
delta column when the column is numeric), every pre-existing column is
kept (none dropped, renamed or retyped), and the table's rows are left
untouched. -/
theorem perm_schema_migration {Row : Type} (ss : List (String × Option String))
    (tbl : PermTable Row) :
    (migratePermTable ss tbl).rows = tbl.rows ∧
    (∃ added, (migratePermTable ss tbl).columns = tbl.columns ++ added) ∧
    (∀ c ∈ tbl.columns, c ∈ (migratePermTable ss tbl).columns) ∧
    (∀ c ∈ ss, c.1 ∉ reservedColumns →
      ("buy_" ++ c.1) ∈ (migratePermTable ss tbl).columns.names ∧
      ("sell_" ++ c.1) ∈ (migratePermTable ss tbl).columns.names ∧
      ((normalizeSqlType c.2 = "REAL" ∨ normalizeSqlType c.2 = "INTEGER") →
        ("delta_" ++ c.1) ∈ (migratePermTable ss tbl).columns.names)) := by
  refine ⟨rfl, ⟨_, rfl⟩, ?_, ?_⟩
  · intro c hc
    rw [migratePermTable]
    exact List.mem_append_left _ hc
  · intro c hc hres
    refine ⟨?_, ?_, ?_⟩
    · exact mem_names_migrate ss tbl _ (buySell_mem_desired ss c hc hres).1
    · exact mem_names_migrate ss tbl _ (buySell_mem_desired ss c hc hres).2
    · intro hnum
      exact mem_names_migrate ss tbl _ (delta_mem_desired ss c hc hres hnum)

/-- A small archive schema and existing feature table for the C9
witness. -/
def ssW : List (String × Option String) :=
  [("osiKey", some "TEXT"), ("timestamp", some "TEXT"),
   ("lastPrice", some "REAL"), ("symbol", some "TEXT")]

def tblW : PermTable Unit :=
  { columns := [("osiKey", "TEXT"), ("buy_timestamp", "TEXT"), ("sell_timestamp", "TEXT")],
    rows := [] }

/-- Witness for C9: migrating `tblW` against `ssW` adds buy/sell/delta
columns for `lastPrice` and leaves the rows untouched. -/
theorem perm_schema_migration_witness :
    (migratePermTable ssW tblW).rows = tblW.rows ∧
    "buy_lastPrice" ∈ (migratePermTable ssW tblW).columns.names ∧
    "sell_lastPrice" ∈ (migratePermTable ssW tblW).columns.names ∧
    "delta_lastPrice" ∈ (migratePermTable ssW tblW).columns.names := by
  have h := perm_schema_migration ssW tblW
  have h4 := h.2.2.2 ("lastPrice", some "REAL") (by decide) (by decide)
  exact ⟨h.1, h4.1, h4.2.1, h4.2.2 (Or.inl (by decide))⟩
